import Mathlib

/-!
Verification development for the paragon-board extraction core of the
mobalytics-accessibility browser extension.

The JavaScript source is shallowly embedded:
* continuous CSS positions (JS floating-point numbers read via `parseFloat`)
  become `ℚ`,
* integral quantities (grid coordinates, rotations in degrees, board indices)
  become `ℤ`/`ℕ`,
* JS `Math.round` becomes `jsRound` (`⌊x + 1/2⌋`, which is exactly JS
  round-half-up semantics),
* the JS `%` operator on integers becomes `Int.tmod` (JS `%` truncates
  toward zero), while the claim-side mathematical `mod` is Lean's `%`
  (`Int.emod`),
* JS objects used as string-keyed maps (`grid[`r,c`] = node`) become
  association lists updated in place (`gridSet`), which models JS property
  assignment: overwriting keeps key order, a fresh key is appended.  The JS
  key is the string `"r,c"`, which is in bijection with the pair `(r, c)`.
* Fields of the JS node/board records that no claim touches (the DOM
  `element` handle, the per-node `rotation`, `isStart`, board `stats`,
  `container`) are omitted from the embedded records.
-/

/-- A continuous 2D coordinate `{left, top}` parsed from a CSS style
declaration (em units). -/
structure Pos where
  left : ℚ
  top : ℚ
  deriving DecidableEq, Repr

/-- An integer grid coordinate `{row, col}`. -/
structure GridPos where
  row : ℤ
  col : ℤ
  deriving DecidableEq, Repr

/-- Grid dimensions as returned by both parsers' `getGridDimensions`. -/
structure Dims where
  minRow : ℤ
  maxRow : ℤ
  minCol : ℤ
  maxCol : ℤ
  rows : ℤ
  cols : ℤ
  deriving DecidableEq, Repr

/-- Maxroll gate edge direction (`d4t-edge` classes `n`/`s`/`e`/`w`). -/
inductive Edge where
  | NORTH
  | EAST
  | SOUTH
  | WEST
  deriving DecidableEq, Repr

/-- Mobalytics local edge / world direction (`TOP`/`RIGHT`/`BOTTOM`/`LEFT`). -/
inductive Dir where
  | TOP
  | RIGHT
  | BOTTOM
  | LEFT
  deriving DecidableEq, Repr

/-- The `connectsTo` cross-reference attached to a gate node: index and name
snapshot of the connected board. -/
structure ConnRef where
  index : ℕ
  name : String
  deriving DecidableEq, Repr

/-- A parsed node.  Superset of the record literals produced by
`MaxrollParser.parseNodeElement` and `ParagonParser.parseNodeElement` /
`parseGlyphSockets`; fields absent in one source (`gateEdge` on Mobalytics
nodes, `connectsTo` before connection resolution) are `none`, matching JS
`null`/`undefined`. -/
structure Node where
  position : Pos
  gridPosition : GridPos
  type : String
  stat : String
  glyphName : String
  isSelected : Bool
  isGate : Bool
  isGlyph : Bool
  gateEdge : Option Edge
  connectsTo : Option ConnRef
  deriving DecidableEq, Repr

/-- The sparse grid: a JS object keyed by the string `"row,col"`, modelled as
an association list keyed by the pair. -/
abbrev Grid := List ((ℤ × ℤ) × Node)

/-- A parsed board (common shape returned by both parsers' `parseBoard`). -/
structure Board where
  index : ℕ
  name : String
  fullName : String
  rotation : ℤ
  position : Option Pos
  nodes : List Node
  grid : Grid
  dimensions : Dims
  deriving DecidableEq, Repr

/-- JS `Math.round`: round half toward positive infinity. -/
def jsRound (q : ℚ) : ℤ := ⌊q + 1 / 2⌋

/-- The `"row,col"` key of a node, as used by both `buildGrid`s. -/
def nodeKey (n : Node) : ℤ × ℤ := (n.gridPosition.row, n.gridPosition.col)

/-- JS property assignment `grid[key] = node`: overwrite in place if the key
exists, otherwise append. -/
def gridSet (grid : Grid) (k : ℤ × ℤ) (n : Node) : Grid :=
  if grid.any (fun e => decide (e.1 = k)) then
    grid.map (fun e => if e.1 = k then (k, n) else e)
  else
    grid ++ [(k, n)]

/-- `buildGrid` (identical in both parsers): insert every node at its
`gridPosition` key, later nodes overwriting earlier ones. -/
def buildGrid (nodes : List Node) : Grid :=
  nodes.foldl (fun g n => gridSet g (nodeKey n) n) []

/-- Key lookup in the grid object. -/
def gridLookup (grid : Grid) (k : ℤ × ℤ) : Option Node :=
  (grid.find? (fun e => decide (e.1 = k))).map Prod.snd

/-- `getNodeAt` (identical in both parsers): `grid[`row,col`] || null`. -/
def getNodeAt (grid : Grid) (row col : ℤ) : Option Node :=
  gridLookup grid (row, col)

/-- `getGridDimensions` (identical in both parsers): scan all occupied keys;
an empty grid yields the all-zero record, otherwise min/max of rows and
columns with `rows`/`cols` set to `max − min + 1`. -/
def getGridDimensions (grid : Grid) : Dims :=
  match grid.map Prod.fst with
  | [] => ⟨0, 0, 0, 0, 0, 0⟩
  | p :: ps =>
    let minRow := ps.foldl (fun a q => min a q.1) p.1
    let maxRow := ps.foldl (fun a q => max a q.1) p.1
    let minCol := ps.foldl (fun a q => min a q.2) p.2
    let maxCol := ps.foldl (fun a q => max a q.2) p.2
    ⟨minRow, maxRow, minCol, maxCol, maxRow - minRow + 1, maxCol - minCol + 1⟩

/-- The all-zero `Dims` record returned for an empty grid. -/
def zeroDims : Dims := ⟨0, 0, 0, 0, 0, 0⟩

namespace MaxrollParser

/-- Maxroll grid spacing: each node is 1em apart. -/
def GRID_SPACING : ℚ := 1

/-- `positionToGrid` (Maxroll): divide by the spacing and `Math.round`. -/
def positionToGrid (position : Pos) : GridPos :=
  ⟨jsRound (position.top / GRID_SPACING), jsRound (position.left / GRID_SPACING)⟩

end MaxrollParser

namespace ParagonParser

/-- Mobalytics grid spacing: each node is 8em apart. -/
def GRID_SPACING : ℚ := 8

/-- `positionToGrid` (Mobalytics): divide by the spacing and `Math.round`. -/
def positionToGrid (position : Pos) : GridPos :=
  ⟨jsRound (position.top / GRID_SPACING), jsRound (position.left / GRID_SPACING)⟩

/-- `parseBoard` (Mobalytics), restricted to the data-assembly step the
claims depend on: the node list is glyph sockets first, then plain nodes,
then gates (so that later layers overwrite sockets in the grid), the grid is
built from that list and the dimensions from the grid.  The DOM-reading
steps (`parseBoardInfo`, `parseNodes`, …) are received here as already
parsed lists. -/
def parseBoardCore (boardIndex : ℕ) (name fullName : String)
    (glyphSockets nodes gates : List Node) (rotation : ℤ)
    (position : Option Pos) : Board :=
  let allNodes := glyphSockets ++ nodes ++ gates
  let grid := buildGrid allNodes
  { index := boardIndex
    name := name
    fullName := fullName
    rotation := rotation
    position := position
    nodes := allNodes
    grid := grid
    dimensions := getGridDimensions grid }

end ParagonParser

/-- Index of an edge in the fixed cyclic ordering `['NORTH', 'EAST', 'SOUTH',
'WEST']` used by `calculateRotation`. -/
def edgeIndex : Edge → ℤ
  | .NORTH => 0
  | .EAST => 1
  | .SOUTH => 2
  | .WEST => 3

namespace MaxrollParser

/-- `getDataEdge`: which boundary of the grid's dimensions a position is on,
checked in fixed priority North, South, West, East; `null` off-boundary. -/
def getDataEdge (gridPos : GridPos) (dimensions : Dims) : Option Edge :=
  if gridPos.row = dimensions.minRow then some .NORTH
  else if gridPos.row = dimensions.maxRow then some .SOUTH
  else if gridPos.col = dimensions.minCol then some .WEST
  else if gridPos.col = dimensions.maxCol then some .EAST
  else none

/-- `calculateRotation`: steps from the expected edge (opposite of the data
edge) to the visual edge, times 90°.  JS `%` on the non-negative operands
involved is `Int.tmod`. -/
def calculateRotation (dataEdge visualEdge : Edge) : ℤ :=
  let expectedIndex := (edgeIndex dataEdge + 2).tmod 4
  ((edgeIndex visualEdge - expectedIndex + 4).tmod 4) * 90

/-- The `for (const gate of gates)` loop of `determineBoardRotation`: the
first gate whose data edge (and visual edge) resolve decides; falling off the
end returns 0. -/
def rotationLoop : List Node → Dims → ℤ
  | [], _ => 0
  | g :: gs, dimensions =>
    match getDataEdge g.gridPosition dimensions, g.gateEdge with
    | some dataEdge, some visualEdge => calculateRotation dataEdge visualEdge
    | _, _ => rotationLoop gs dimensions

/-- `determineBoardRotation`: filter the gates that carry a visual edge
direction, return 0 when none, otherwise run the loop. -/
def determineBoardRotation (nodes : List Node) (dimensions : Dims) : ℤ :=
  let gates := nodes.filter (fun n => n.isGate && n.gateEdge.isSome)
  if gates.isEmpty then 0 else rotationLoop gates dimensions

/-- `calculateGateConnections` (Maxroll): the body is short-circuited by an
unconditional `return` before any connection logic runs, so the boards pass
through untouched. -/
def calculateGateConnections (boards : List Board) : List Board := boards

end MaxrollParser

/-- Claim-side rotation formula for C1, written with the claim's mathematical
`mod` (`Int.emod`): `((index(visual) - ((index(data)+2) mod 4) + 4) mod 4) * 90`. -/
def specRotationFormula (dataEdge visualEdge : Edge) : ℤ :=
  ((edgeIndex visualEdge - (edgeIndex dataEdge + 2) % 4 + 4) % 4) * 90

/-- Claim-side qualification test for C1: a gate node with a non-null edge
direction whose grid position lies on a boundary of the dimensions. -/
def qualifiesForRotation (dimensions : Dims) (n : Node) : Bool :=
  n.isGate && n.gateEdge.isSome &&
    (MaxrollParser.getDataEdge n.gridPosition dimensions).isSome

/-- Claim-side description of the whole rotation inference for C1: the first
qualifying gate in node order yields the formula, no qualifying gate yields 0. -/
def specBoardRotation (nodes : List Node) (dimensions : Dims) : ℤ :=
  match nodes.find? (qualifiesForRotation dimensions) with
  | some g =>
    match g.gateEdge, MaxrollParser.getDataEdge g.gridPosition dimensions with
    | some visualEdge, some dataEdge => specRotationFormula dataEdge visualEdge
    | _, _ => 0
  | none => 0

/-- JS rotation normalization `((rotation % 360) + 360) % 360` (JS `%` is
truncated remainder, `Int.tmod`). -/
def normalizeRotation (rotation : ℤ) : ℤ :=
  ((rotation.tmod 360) + 360).tmod 360

namespace ParagonParser

/-- Board size in em units (spacing between boards). -/
def BOARD_SIZE : ℚ := 168

/-- `getGateEdge`: fixed canonical gate positions within an unrotated board,
with a nearest-edge fallback. -/
def getGateEdge (position : Pos) : Dir :=
  if position.top = 0 then .TOP
  else if position.left = 160 then .RIGHT
  else if position.top = 160 then .BOTTOM
  else if position.left = 0 then .LEFT
  else if position.top < 40 then .TOP
  else if position.left > 120 then .RIGHT
  else if position.top > 120 then .BOTTOM
  else .LEFT

/-- Index of a direction in `['TOP', 'RIGHT', 'BOTTOM', 'LEFT']`. -/
def dirIndex : Dir → ℤ
  | .TOP => 0
  | .RIGHT => 1
  | .BOTTOM => 2
  | .LEFT => 3

/-- `directions[i]` for the in-range indices produced by `rotateDirection`
(the index is a `tmod 4` of a non-negative number, hence in `0..3`). -/
def dirOfIndex (i : ℤ) : Dir :=
  if i = 0 then .TOP
  else if i = 1 then .RIGHT
  else if i = 2 then .BOTTOM
  else .LEFT

/-- `rotateDirection`: rotate the edge index clockwise by
`normalizedRotation / 90` steps.  The JS division is float division; it
agrees with integer division whenever the normalized rotation is a multiple
of 90, which is the only case in which the JS array index is defined at all
(and the only case the claims quantify over). -/
def rotateDirection (edge : Dir) (rotation : ℤ) : Dir :=
  let normalizedRotation := normalizeRotation rotation
  let rotationSteps := normalizedRotation / 90
  dirOfIndex ((dirIndex edge + rotationSteps).tmod 4)

/-- The expected adjacent-board position computed by the `switch` in
`findAdjacentBoard`: offset by `BOARD_SIZE` along one axis. -/
def expectedAdjacentPos (p : Pos) : Dir → Pos
  | .TOP => ⟨p.left, p.top - BOARD_SIZE⟩
  | .RIGHT => ⟨p.left + BOARD_SIZE, p.top⟩
  | .BOTTOM => ⟨p.left, p.top + BOARD_SIZE⟩
  | .LEFT => ⟨p.left - BOARD_SIZE, p.top⟩

/-- `findAdjacentBoard`: `null` when the current board has no position;
otherwise the first board (in list order) that has a position, is not the
current board, and matches the expected position within tolerance 10 on both
axes. -/
def findAdjacentBoard (boards : List Board) (currentBoard : Board)
    (direction : Dir) : Option Board :=
  match currentBoard.position with
  | none => none
  | some p =>
    let expected := expectedAdjacentPos p direction
    boards.find? (fun board =>
      match board.position with
      | none => false
      | some bp =>
        if board.index = currentBoard.index then false
        else decide (|bp.left - expected.left| < 10) &&
          decide (|bp.top - expected.top| < 10))

/-- JS `` `${name}`.replace(/^\d+/, '') ``: strip a leading run of ASCII
digits. -/
def stripLeadingDigits (s : String) : String :=
  ⟨s.data.dropWhile Char.isDigit⟩

/-- The name stored in `connectsTo`:
`(connectedBoard.fullName || connectedBoard.name).replace(/^\d+/, '')`. -/
def connectionName (b : Board) : String :=
  stripLeadingDigits (if b.fullName = "" then b.name else b.fullName)

/-- `calculateGateConnections` (Mobalytics): for every gate node of every
board, derive the local edge from the gate's position, rotate it by the
board's rotation, search for the adjacent board in that world direction, and
attach `connectsTo` (or `null`).  The JS loop mutates the node objects in
place; since the search only reads board `position`/`index`/`name` fields
(never nodes), the functional map over the original list is equivalent. -/
def calculateGateConnections (boards : List Board) : List Board :=
  boards.map (fun board =>
    { board with
      nodes := board.nodes.map (fun node =>
        if node.isGate then
          { node with
            connectsTo :=
              (findAdjacentBoard boards board
                (rotateDirection (getGateEdge node.position) board.rotation)).map
                (fun b => ⟨b.index, connectionName b⟩) }
        else node) })

end ParagonParser

/-- Claim-side connection target for C4: the expected position is the
board's own position offset by the spacing constant 168 along the
corresponding axis, and the connection is the first different board whose
position matches it within tolerance 10 on both axes, else `null`. -/
def specGateTarget (boards : List Board) (board : Board) (node : Node) :
    Option ConnRef :=
  match board.position with
  | none => none
  | some p =>
    let dir := ParagonParser.rotateDirection
      (ParagonParser.getGateEdge node.position) board.rotation
    let expected : Pos :=
      match dir with
      | .TOP => ⟨p.left, p.top - 168⟩
      | .RIGHT => ⟨p.left + 168, p.top⟩
      | .BOTTOM => ⟨p.left, p.top + 168⟩
      | .LEFT => ⟨p.left - 168, p.top⟩
    (boards.find? (fun b =>
      (b.index != board.index) &&
        match b.position with
        | none => false
        | some bp =>
          decide (|bp.left - expected.left| < 10) &&
            decide (|bp.top - expected.top| < 10))).map
      (fun b => ⟨b.index, ParagonParser.connectionName b⟩)

namespace TableGenerator

/-- `transformCoordinates`: display position to source grid position, by the
(already normalized) rotation. -/
def transformCoordinates (displayRow displayCol minRow maxRow minCol maxCol
    rotation : ℤ) : GridPos :=
  if rotation = 90 then ⟨maxRow - displayCol, minCol + displayRow⟩
  else if rotation = 180 then ⟨maxRow - displayRow, maxCol - displayCol⟩
  else if rotation = 270 then ⟨minRow + displayCol, maxCol - displayRow⟩
  else ⟨minRow + displayRow, minCol + displayCol⟩

/-- The display extents `(displayRows, displayCols)` computed by
`generateTable`: row and column extents swap at 90°/270°. -/
def displayExtents (d : Dims) (rotation : ℤ) : ℤ × ℤ :=
  let normalizedRotation := normalizeRotation rotation
  if normalizedRotation = 90 ∨ normalizedRotation = 270 then
    (d.maxCol - d.minCol + 1, d.maxRow - d.minRow + 1)
  else
    (d.maxRow - d.minRow + 1, d.maxCol - d.minCol + 1)

/-- The source grid position `generateTable` looks up for a display cell:
`transformCoordinates` applied to the normalized rotation. -/
def tableCellSource (d : Dims) (rotation displayRow displayCol : ℤ) : GridPos :=
  transformCoordinates displayRow displayCol d.minRow d.maxRow d.minCol d.maxCol
    (normalizeRotation rotation)

/-- The dimensions of the displayed (rotated) table produced by a projection:
0-based extents from `displayExtents`. -/
def rotatedDims (d : Dims) (rotation : ℤ) : Dims :=
  let e := displayExtents d rotation
  ⟨0, e.1 - 1, 0, e.2 - 1, e.1, e.2⟩

/-- `formatRotation`: descriptive text for the normalized rotation; the
fallback branch interpolates the raw, unnormalized argument. -/
def formatRotation (degrees : ℤ) : String :=
  let normalizedDegrees := normalizeRotation degrees
  if normalizedDegrees = 0 then "No rotation"
  else if normalizedDegrees = 90 then "Rotated right once"
  else if normalizedDegrees = 180 then "Rotated right twice"
  else if normalizedDegrees = 270 then "Rotated right thrice"
  else "Rotated " ++ toString degrees ++ " degrees"

end TableGenerator

/-!
Embedding of the two `parsePosition` regex matchers.

Maxroll: `style.match(/left:\s*([-\d.]+)(?:em|px)/)` (and the same for
`top:`); Mobalytics: `style.match(/left:\s*([-\d.]+)em/)`.

JS regex search tries each start position left to right.  At a given start
position, the whole match is deterministic maximal-munch: the character
classes `\s` and `[-\d.]` are disjoint from each other and from the unit
letters `e`/`p`, so neither `\s*` nor `([-\d.]+)` can profitably backtrack —
shrinking either one makes the next sub-pattern face a character of the
shrunk class, which can never start `em`/`px` nor extend `\s`.  The scanner
below implements exactly that. -/

/-- JS `\s` for the characters that can occur in a style attribute
(space, tab, newline, carriage return, vertical tab, form feed). -/
def isJsSpace (c : Char) : Bool :=
  c = ' ' || c = '\t' || c = '\n' || c = '\r' || c = '\x0b' || c = '\x0c'

/-- The `[-\d.]` character class. -/
def isNumToken (c : Char) : Bool :=
  c = '-' || c = '.' || c.isDigit

/-- Drop an expected literal prefix, or fail. -/
def dropLit : List Char → List Char → Option (List Char)
  | [], l => some l
  | _ :: _, [] => none
  | p :: ps, c :: cs => if c = p then dropLit ps cs else none

/-- Try the whole pattern `key \s* ([-\d.]+) (unit₁|unit₂|…)` anchored at the
front of `l`; return the captured number token. -/
def tryMatchAt (key : List Char) (units : List (List Char)) (l : List Char) :
    Option (List Char) :=
  match dropLit key l with
  | none => none
  | some r1 =>
    let r2 := r1.dropWhile isJsSpace
    let capture := r2.takeWhile isNumToken
    let r3 := r2.dropWhile isNumToken
    if capture.isEmpty then none
    else if units.any (fun u => u.isPrefixOf r3) then some capture
    else none

/-- Unanchored regex search: first start position (left to right) at which
the pattern matches wins. -/
def searchValue (key : List Char) (units : List (List Char)) :
    List Char → Option (List Char)
  | [] => none
  | c :: cs =>
    match tryMatchAt key units (c :: cs) with
    | some capture => some capture
    | none => searchValue key units cs

/-- Numeric value of a digit string. -/
def digitsVal (l : List Char) : ℕ :=
  l.foldl (fun a c => 10 * a + (c.toNat - '0'.toNat)) 0

/-- JS `parseFloat` on the unsigned part of a captured `[-\d.]+` token:
leading digits, then an optional fraction after a single dot; anything
after that is ignored; no digits at all is `NaN` (`none`). -/
def parseFloatDigits (l : List Char) : Option ℚ :=
  let ds := l.takeWhile Char.isDigit
  match l.dropWhile Char.isDigit with
  | '.' :: r =>
    let fs := r.takeWhile Char.isDigit
    if ds.isEmpty && fs.isEmpty then none
    else some ((digitsVal ds : ℚ) + (digitsVal fs : ℚ) / (10 : ℚ) ^ fs.length)
  | _ => if ds.isEmpty then none else some ((digitsVal ds : ℚ))

/-- JS `parseFloat` on a captured `[-\d.]+` token: an optional single leading
minus sign, then the unsigned part.  `none` is JS `NaN`. -/
def parseFloatCapture (l : List Char) : Option ℚ :=
  match l with
  | [] => none
  | c :: r =>
    if c = '-' then (parseFloatDigits r).map (fun q => -q)
    else parseFloatDigits (c :: r)

/-- The result of `parsePosition`: present exactly when both regexes
matched; each numeric field is `none` when `parseFloat` gave `NaN`. -/
structure RawPos where
  left : Option ℚ
  top : Option ℚ
  deriving DecidableEq, Repr

/-- The literal `left:` of both regexes. -/
def leftKey : List Char := ['l', 'e', 'f', 't', ':']

/-- The literal `top:` of both regexes. -/
def topKey : List Char := ['t', 'o', 'p', ':']

/-- The `em` unit literal. -/
def emUnit : List Char := ['e', 'm']

/-- The `px` unit literal. -/
def pxUnit : List Char := ['p', 'x']

namespace MaxrollParser

/-- `parsePosition` (Maxroll): both `left` and `top` must match, each with
unit `em` or `px`. -/
def parsePosition (style : String) : Option RawPos :=
  match searchValue leftKey [emUnit, pxUnit] style.data,
      searchValue topKey [emUnit, pxUnit] style.data with
  | some leftCapture, some topCapture =>
    some ⟨parseFloatCapture leftCapture, parseFloatCapture topCapture⟩
  | _, _ => none

end MaxrollParser

namespace ParagonParser

/-- `parsePosition` (Mobalytics): both `left` and `top` must match, each with
unit `em` only. -/
def parsePosition (style : String) : Option RawPos :=
  match searchValue leftKey [emUnit] style.data,
      searchValue topKey [emUnit] style.data with
  | some leftCapture, some topCapture =>
    some ⟨parseFloatCapture leftCapture, parseFloatCapture topCapture⟩
  | _, _ => none

end ParagonParser

/-- The unit literal chosen by a flag: `em` when true, `px` when false. -/
def unitChars (em : Bool) : List Char := if em then emUnit else pxUnit

/-- The `; top: <td><unit>` tail of a canonical style string. -/
def styleTail (td : List Char) (tu : Bool) : List Char :=
  ';' :: ' ' :: (topKey ++ (' ' :: (td ++ unitChars tu)))

/-- A canonical style string `left: <ld><unit>; top: <td><unit>` built from
two digit strings and two unit flags. -/
def mkStyleChars (ld : List Char) (lu : Bool) (td : List Char) (tu : Bool) :
    List Char :=
  leftKey ++ (' ' :: (ld ++ (unitChars lu ++ styleTail td tu)))

/-- The last node of a list whose grid position is `(r, c)` (as an option):
what a later-wins insertion order leaves in the grid. -/
def lastNodeAt (ns : List Node) (r c : ℤ) : Option Node :=
  ns.foldl (fun acc n => if nodeKey n = (r, c) then some n else acc) none

/-- A Mobalytics glyph-socket node sharing its position with a gate backdrop
(the situation the source comments call out in `parseBoard`). -/
def collisionSocket : Node :=
  { position := ⟨80, 0⟩
    gridPosition := ⟨0, 10⟩
    type := "glyph"
    stat := "Glyph Socket"
    glyphName := ""
    isSelected := true
    isGate := false
    isGlyph := true
    gateEdge := none
    connectsTo := none }

/-- A Mobalytics gate node at the same position as `collisionSocket`. -/
def collisionGate : Node :=
  { position := ⟨80, 0⟩
    gridPosition := ⟨0, 10⟩
    type := "gate"
    stat := "Gate"
    glyphName := ""
    isSelected := false
    isGate := true
    isGlyph := false
    gateEdge := none
    connectsTo := none }

/-- A board extracted from a subtree containing the colliding socket and
gate. -/
def collisionBoard : Board :=
  ParagonParser.parseBoardCore 1 "Board" "" [collisionSocket] [] [collisionGate] 0 none

/-- A layout-B board at world position `{left: 0, top: 0}`, rotation 0, with
a single gate at the local RIGHT edge position `{left: 160, top: 80}`. -/
def scenarioBoardA : Board :=
  { index := 1
    name := "Start"
    fullName := "1Start"
    rotation := 0
    position := some ⟨0, 0⟩
    nodes := [{ collisionGate with position := ⟨160, 80⟩ }]
    grid := []
    dimensions := zeroDims }

/-- A layout-B board at world position `{left: 168, top: 0}`. -/
def scenarioBoardB : Board :=
  { index := 2
    name := "Next"
    fullName := "2Next"
    rotation := 0
    position := some ⟨168, 0⟩
    nodes := []
    grid := []
    dimensions := zeroDims }

/-- A Maxroll gate node (as built by `parseNodeElement`, whose record
literal carries no `connectsTo` property, i.e. `none`). -/
def maxrollGateNode : Node :=
  { position := ⟨10, 0⟩
    gridPosition := ⟨0, 10⟩
    type := "gate"
    stat := "Gate"
    glyphName := ""
    isSelected := false
    isGate := true
    isGlyph := false
    gateEdge := some .EAST
    connectsTo := none }

/-- A one-board Maxroll board list used to instantiate C5. -/
def maxrollBoards : List Board :=
  [{ index := 1
     name := "Board"
     fullName := "1. Board"
     rotation := 0
     position := none
     nodes := [maxrollGateNode]
     grid := buildGrid [maxrollGateNode]
     dimensions := getGridDimensions (buildGrid [maxrollGateNode]) }]

/-!  Helper lemmas. -/

/-- Rounding characterization: any value strictly within 1/2 of the integer
`k` rounds to `k`. -/
theorem jsRound_eq {q : ℚ} {k : ℤ} (h : |q - (k : ℚ)| < 1 / 2) : jsRound q = k := by
  unfold jsRound
  rw [abs_lt] at h
  rw [Int.floor_eq_iff]
  constructor
  · linarith [h.1]
  · linarith [h.2]

/-- A left fold with `min` never exceeds its initial value. -/
theorem foldl_min_le {β : Type} (f : β → ℤ) :
    ∀ (l : List β) (a : ℤ), List.foldl (fun x q => min x (f q)) a l ≤ a := by
  intro l
  induction l with
  | nil => intro a; exact le_refl a
  | cons x xs ih =>
    intro a
    calc List.foldl (fun x q => min x (f q)) (min a (f x)) xs
        ≤ min a (f x) := ih (min a (f x))
      _ ≤ a := min_le_left a (f x)

/-- A left fold with `max` never drops below its initial value. -/
theorem le_foldl_max {β : Type} (f : β → ℤ) :
    ∀ (l : List β) (a : ℤ), a ≤ List.foldl (fun x q => max x (f q)) a l := by
  intro l
  induction l with
  | nil => intro a; exact le_refl a
  | cons x xs ih =>
    intro a
    calc a ≤ max a (f x) := le_max_left a (f x)
      _ ≤ List.foldl (fun x q => max x (f q)) (max a (f x)) xs := ih (max a (f x))

/-- Unfolding lemma for `gridLookup` on a cons cell. -/
theorem gridLookup_cons (e : (ℤ × ℤ) × Node) (es : Grid) (q : ℤ × ℤ) :
    gridLookup (e :: es) q = if e.1 = q then some e.2 else gridLookup es q := by
  unfold gridLookup
  rw [List.find?_cons]
  by_cases h : e.1 = q
  · simp [h]
  · simp [h]

/-- Overwriting key `k` does not change lookups at other keys. -/
theorem gridLookup_update_ne (k q : ℤ × ℤ) (n : Node) (hq : q ≠ k) :
    ∀ g : Grid,
      gridLookup (g.map (fun e => if e.1 = k then (k, n) else e)) q =
        gridLookup g q := by
  intro g
  induction g with
  | nil => rfl
  | cons e es ih =>
    by_cases he : e.1 = k
    · simp only [List.map_cons, if_pos he, gridLookup_cons]
      rw [if_neg (fun hh : k = q => hq hh.symm),
        if_neg (fun hh : e.1 = q => hq (by rw [← hh]; exact he))]
      exact ih
    · simp only [List.map_cons, if_neg he, gridLookup_cons]
      by_cases heq : e.1 = q
      · rw [if_pos heq, if_pos heq]
      · rw [if_neg heq, if_neg heq]
        exact ih

/-- Overwriting key `k` in a grid that contains it makes lookups at `k`
return the new node. -/
theorem gridLookup_update_self (k : ℤ × ℤ) (n : Node) :
    ∀ g : Grid, g.any (fun e => decide (e.1 = k)) = true →
      gridLookup (g.map (fun e => if e.1 = k then (k, n) else e)) k = some n := by
  intro g
  induction g with
  | nil => intro h; simp at h
  | cons e es ih =>
    intro hany
    by_cases he : e.1 = k
    · simp only [List.map_cons, if_pos he, gridLookup_cons]
      simp
    · simp only [List.map_cons, if_neg he, gridLookup_cons]
      apply ih
      simp only [List.any_cons, Bool.or_eq_true] at hany
      rcases hany with h | h
      · exact absurd (of_decide_eq_true h) he
      · exact h

/-- JS property assignment, seen through lookup: the written key now maps to
the written node, all other keys are unchanged. -/
theorem gridLookup_gridSet (g : Grid) (k : ℤ × ℤ) (n : Node) (q : ℤ × ℤ) :
    gridLookup (gridSet g k n) q = if q = k then some n else gridLookup g q := by
  unfold gridSet
  by_cases hany : g.any (fun e => decide (e.1 = k)) = true
  · rw [if_pos hany]
    by_cases hq : q = k
    · subst hq
      rw [if_pos rfl]
      exact gridLookup_update_self q n g hany
    · rw [if_neg hq]
      exact gridLookup_update_ne k q n hq g
  · rw [if_neg hany]
    have hfalse : g.any (fun e => decide (e.1 = k)) = false := by
      revert hany
      cases g.any (fun e => decide (e.1 = k)) <;> simp
    have hnone : ∀ e ∈ g, ¬ (e.1 = k) := by
      intro e he
      have := List.any_eq_false.mp hfalse e he
      simpa using this
    by_cases hq : q = k
    · subst hq
      rw [if_pos rfl]
      unfold gridLookup
      rw [List.find?_append]
      have hgnone : g.find? (fun e => decide (e.1 = q)) = none :=
        List.find?_eq_none.mpr (fun e he => by simpa using hnone e he)
      rw [hgnone]
      simp
    · rw [if_neg hq]
      unfold gridLookup
      rw [List.find?_append]
      have hsingle : [((k, n) : (ℤ × ℤ) × Node)].find? (fun e => decide (e.1 = q)) = none := by
        simp only [List.find?]
        rw [decide_eq_false (fun hh : k = q => hq hh.symm)]
      rw [hsingle, Option.or_none]

/-- Folding `gridSet` over a node list, seen through lookup: the last
inserted node at each key wins. -/
theorem gridLookup_foldl (k : ℤ × ℤ) :
    ∀ (ns : List Node) (g : Grid),
      gridLookup (ns.foldl (fun g n => gridSet g (nodeKey n) n) g) k =
        ns.foldl (fun acc n => if nodeKey n = k then some n else acc)
          (gridLookup g k) := by
  intro ns
  induction ns with
  | nil => intro g; rfl
  | cons n ns ih =>
    intro g
    rw [List.foldl_cons, List.foldl_cons, ih]
    congr 1
    rw [gridLookup_gridSet]
    by_cases h : k = nodeKey n
    · rw [if_pos h, if_pos h.symm]
    · rw [if_neg h, if_neg (fun hh => h hh.symm)]

/-- The JS normalization `((r % 360) + 360) % 360` equals the mathematical
residue `r mod 360`. -/
theorem normalizeRotation_eq_emod (r : ℤ) : normalizeRotation r = r % 360 := by
  have hlt : r.tmod 360 < 360 := Int.tmod_lt_of_pos r (by norm_num)
  have hgt : -360 < r.tmod 360 := by
    rcases le_or_lt 0 r with hr | hr
    · have := Int.tmod_nonneg 360 hr
      omega
    · have h1 : (-r).tmod 360 < 360 := Int.tmod_lt_of_pos _ (by norm_num)
      have h2 : r.tmod 360 = -((-r).tmod 360) := by
        rw [Int.tmod_def, Int.tmod_def, Int.neg_tdiv]
        ring
      omega
  have hdef : r.tmod 360 = r - 360 * (r.tdiv 360) := Int.tmod_def r 360
  unfold normalizeRotation
  rw [Int.tmod_eq_emod (by omega) (by norm_num), hdef]
  omega

/-- Adding full turns does not change the normalized rotation. -/
theorem normalizeRotation_add_turns (r k : ℤ) :
    normalizeRotation (r + 360 * k) = normalizeRotation r := by
  rw [normalizeRotation_eq_emod, normalizeRotation_eq_emod,
    Int.add_mul_emod_self_left]

/-- For a multiple of 90, the normalized rotation is one of the four named
values. -/
theorem normalizeRotation_of_right_angle (r : ℤ) (h : 90 ∣ r) :
    normalizeRotation r = 0 ∨ normalizeRotation r = 90 ∨
      normalizeRotation r = 180 ∨ normalizeRotation r = 270 := by
  rw [normalizeRotation_eq_emod]
  obtain ⟨m, rfl⟩ := h
  omega

/-- `calculateRotation` computes exactly the claim's formula (the JS `%` on
these non-negative operands agrees with the mathematical `mod`). -/
theorem calculateRotation_eq_formula (de ve : Edge) :
    MaxrollParser.calculateRotation de ve = specRotationFormula de ve := by
  cases de <;> cases ve <;> rfl

/-- The gate loop over the filtered gate list implements the claim-side
first-qualifying-gate rule. -/
theorem rotationLoop_eq_spec (dimensions : Dims) :
    ∀ nodes : List Node,
      MaxrollParser.rotationLoop
        (nodes.filter (fun n => n.isGate && n.gateEdge.isSome)) dimensions =
        specBoardRotation nodes dimensions := by
  intro nodes
  induction nodes with
  | nil => rfl
  | cons n ns ih =>
    by_cases hp : (n.isGate && n.gateEdge.isSome) = true
    · rw [List.filter_cons, if_pos hp]
      have hp' := hp
      simp only [Bool.and_eq_true] at hp'
      obtain ⟨ve, hve⟩ : ∃ ve, n.gateEdge = some ve :=
        Option.isSome_iff_exists.mp hp'.2
      rcases hde : MaxrollParser.getDataEdge n.gridPosition dimensions with _ | de
      · have hq : qualifiesForRotation dimensions n = false := by
          simp [qualifiesForRotation, hde]
        have hstep :
            MaxrollParser.rotationLoop
              (n :: ns.filter (fun n => n.isGate && n.gateEdge.isSome)) dimensions =
              MaxrollParser.rotationLoop
                (ns.filter (fun n => n.isGate && n.gateEdge.isSome)) dimensions := by
          simp [MaxrollParser.rotationLoop, hde]
        have hspec : specBoardRotation (n :: ns) dimensions =
            specBoardRotation ns dimensions := by
          unfold specBoardRotation
          rw [List.find?_cons, hq]
        rw [hstep, hspec]
        exact ih
      · have hq : qualifiesForRotation dimensions n = true := by
          simp [qualifiesForRotation, hde, hp'.1, hve]
        have hstep :
            MaxrollParser.rotationLoop
              (n :: ns.filter (fun n => n.isGate && n.gateEdge.isSome)) dimensions =
              MaxrollParser.calculateRotation de ve := by
          simp [MaxrollParser.rotationLoop, hde, hve]
        have hspec : specBoardRotation (n :: ns) dimensions =
            specRotationFormula de ve := by
          unfold specBoardRotation
          rw [List.find?_cons, hq]
          simp [hve, hde]
        rw [hstep, hspec]
        exact calculateRotation_eq_formula de ve
    · rw [List.filter_cons, if_neg hp]
      have hfalse : (n.isGate && n.gateEdge.isSome) = false := by
        cases h : n.isGate && n.gateEdge.isSome
        · rfl
        · exact absurd h hp
      have hq : qualifiesForRotation dimensions n = false := by
        unfold qualifiesForRotation
        rw [hfalse]
        simp
      have hspec : specBoardRotation (n :: ns) dimensions =
          specBoardRotation ns dimensions := by
        unfold specBoardRotation
        rw [List.find?_cons, hq]
      rw [hspec]
      exact ih

/-- C1: for every board processed by the Maxroll extractor,
`determineBoardRotation` returns, for the first gate node in node order with
a non-null edge direction and a grid position on a boundary of the
dimensions (boundary priority North, South, West, East), the rotation
`((index(edgeDirection) − ((index(dataEdge)+2) mod 4) + 4) mod 4) · 90`
under the cyclic ordering `[NORTH, EAST, SOUTH, WEST]`, and 0 when no gate
qualifies. -/
theorem determineBoardRotation_first_qualifying_gate
    (nodes : List Node) (dimensions : Dims) :
    MaxrollParser.determineBoardRotation nodes dimensions =
      specBoardRotation nodes dimensions := by
  have h := rotationLoop_eq_spec dimensions nodes
  unfold MaxrollParser.determineBoardRotation
  rcases hfil : nodes.filter (fun n => n.isGate && n.gateEdge.isSome) with _ | ⟨g, gs⟩ <;>
    rw [hfil] at h
  · rw [hfil]
    simpa [MaxrollParser.rotationLoop] using h
  · rw [hfil]
    simpa using h

/-- C2: the Grid Projector's coordinate transform realizes exactly the four
stated formulas, and `generateTable` swaps the row/column extents at 90° and
270°. -/
theorem transformCoordinates_rotation_formulas (d : Dims) (a b : ℤ) :
    (TableGenerator.displayExtents d 0 =
        (d.maxRow - d.minRow + 1, d.maxCol - d.minCol + 1) ∧
      TableGenerator.displayExtents d 90 =
        (d.maxCol - d.minCol + 1, d.maxRow - d.minRow + 1) ∧
      TableGenerator.displayExtents d 180 =
        (d.maxRow - d.minRow + 1, d.maxCol - d.minCol + 1) ∧
      TableGenerator.displayExtents d 270 =
        (d.maxCol - d.minCol + 1, d.maxRow - d.minRow + 1)) ∧
    TableGenerator.tableCellSource d 0 a b = ⟨d.minRow + a, d.minCol + b⟩ ∧
    TableGenerator.tableCellSource d 90 a b = ⟨d.maxRow - b, d.minCol + a⟩ ∧
    TableGenerator.tableCellSource d 180 a b = ⟨d.maxRow - a, d.maxCol - b⟩ ∧
    TableGenerator.tableCellSource d 270 a b = ⟨d.minRow + b, d.maxCol - a⟩ := by
  have h0 : normalizeRotation 0 = 0 := by decide
  have h90 : normalizeRotation 90 = 90 := by decide
  have h180 : normalizeRotation 180 = 180 := by decide
  have h270 : normalizeRotation 270 = 270 := by decide
  refine ⟨⟨?_, ?_, ?_, ?_⟩, ?_, ?_, ?_, ?_⟩ <;>
    simp [TableGenerator.displayExtents, TableGenerator.tableCellSource,
      TableGenerator.transformCoordinates, h0, h90, h180, h270]

/-- C5: the Maxroll `calculateGateConnections` is short-circuited: it
performs no connection computation (the boards come back unchanged), so
every gate's `connectsTo` stays `null` exactly as extracted. -/
theorem maxroll_connections_disabled (boards : List Board)
    (h : ∀ b ∈ boards, ∀ n ∈ b.nodes, n.connectsTo = none) :
    MaxrollParser.calculateGateConnections boards = boards ∧
    ∀ b ∈ MaxrollParser.calculateGateConnections boards, ∀ n ∈ b.nodes,
      n.connectsTo = none :=
  ⟨rfl, h⟩

/-- Witness for C5 at a concrete one-board list with one gate. -/
theorem maxroll_connections_disabled_witness :
    (∀ b ∈ maxrollBoards, ∀ n ∈ b.nodes, n.connectsTo = none) ∧
    (MaxrollParser.calculateGateConnections maxrollBoards = maxrollBoards ∧
      ∀ b ∈ MaxrollParser.calculateGateConnections maxrollBoards, ∀ n ∈ b.nodes,
        n.connectsTo = none) := by
  have h : ∀ b ∈ maxrollBoards, ∀ n ∈ b.nodes, n.connectsTo = none := by
    intro b hb n hn
    simp only [maxrollBoards, List.mem_singleton] at hb
    subst hb
    simp only [List.mem_singleton] at hn
    subst hn
    rfl
  exact ⟨h, maxroll_connections_disabled maxrollBoards h⟩

/-- Counterexample for C7: on the empty grid, `getGridDimensions` returns the
all-zero record, whose `rows` field violates `rows = maxRow − minRow + 1`
(0 ≠ 0 − 0 + 1). -/
theorem getGridDimensions_empty_breaks_rows_formula :
    getGridDimensions [] = zeroDims ∧
    ¬ ((getGridDimensions []).rows =
        (getGridDimensions []).maxRow - (getGridDimensions []).minRow + 1) := by
  constructor
  · rfl
  · decide

/-- C7 (amended): on every non-empty grid the returned dimensions satisfy
`rows = maxRow − minRow + 1` and `cols = maxCol − minCol + 1`, and the
all-zero record is returned exactly for the empty grid. -/
theorem getGridDimensions_formula_and_empty
    (g : Grid) :
    (g ≠ [] →
      (getGridDimensions g).rows =
        (getGridDimensions g).maxRow - (getGridDimensions g).minRow + 1 ∧
      (getGridDimensions g).cols =
        (getGridDimensions g).maxCol - (getGridDimensions g).minCol + 1) ∧
    (getGridDimensions g = zeroDims ↔ g = []) := by
  cases g with
  | nil =>
    refine ⟨fun h => absurd rfl h, ?_⟩
    simp [getGridDimensions, zeroDims]
  | cons e es =>
    have hrows : (getGridDimensions (e :: es)).rows =
        (getGridDimensions (e :: es)).maxRow -
          (getGridDimensions (e :: es)).minRow + 1 := rfl
    have hcols : (getGridDimensions (e :: es)).cols =
        (getGridDimensions (e :: es)).maxCol -
          (getGridDimensions (e :: es)).minCol + 1 := rfl
    refine ⟨fun _ => ⟨hrows, hcols⟩, ?_, fun h => absurd h (List.cons_ne_nil e es)⟩
    intro hz
    exfalso
    have hmin : (getGridDimensions (e :: es)).minRow ≤ e.1.1 :=
      foldl_min_le Prod.fst (es.map Prod.fst) e.1.1
    have hmax : e.1.1 ≤ (getGridDimensions (e :: es)).maxRow :=
      le_foldl_max Prod.fst (es.map Prod.fst) e.1.1
    have h0 : (getGridDimensions (e :: es)).rows = 0 := by
      rw [hz]
      rfl
    omega

/-- Witness for C7 (amended) at a concrete one-entry grid. -/
theorem getGridDimensions_formula_witness :
    (([((3, 4), collisionGate)] : Grid) ≠ [] →
      (getGridDimensions [((3, 4), collisionGate)]).rows =
        (getGridDimensions [((3, 4), collisionGate)]).maxRow -
          (getGridDimensions [((3, 4), collisionGate)]).minRow + 1 ∧
      (getGridDimensions [((3, 4), collisionGate)]).cols =
        (getGridDimensions [((3, 4), collisionGate)]).maxCol -
          (getGridDimensions [((3, 4), collisionGate)]).minCol + 1) ∧
    (getGridDimensions [((3, 4), collisionGate)] = zeroDims ↔
      ([((3, 4), collisionGate)] : Grid) = []) :=
  getGridDimensions_formula_and_empty [((3, 4), collisionGate)]

/-- Counterexample for C6: the Mobalytics extractor can produce a board
whose node list contains two distinct nodes at the same grid position — a
glyph socket and a gate at the same coordinates, exactly the overlap the
source deals with by insertion order — and `buildGrid` then drops one of
the two (a 2-node board yields a 1-entry grid). -/
theorem extracted_board_grid_collision :
    collisionSocket ∈ collisionBoard.nodes ∧
    collisionGate ∈ collisionBoard.nodes ∧
    collisionSocket ≠ collisionGate ∧
    ParagonParser.positionToGrid collisionSocket.position =
      ParagonParser.positionToGrid collisionGate.position ∧
    ParagonParser.positionToGrid collisionSocket.position =
      collisionSocket.gridPosition ∧
    collisionBoard.nodes.length = 2 ∧
    collisionBoard.grid.length = 1 := by
  refine ⟨?_, ?_, ?_, rfl, ?_, rfl, rfl⟩
  · simp [collisionBoard, ParagonParser.parseBoardCore]
  · simp [collisionBoard, ParagonParser.parseBoardCore]
  · intro h
    have := congrArg Node.type h
    simp [collisionSocket, collisionGate] at this
  · show (⟨jsRound ((0 : ℚ) / 8), jsRound ((80 : ℚ) / 8)⟩ : GridPos) = ⟨0, 10⟩
    have h1 : jsRound ((0 : ℚ) / 8) = 0 := jsRound_eq (by norm_num)
    have h2 : jsRound ((80 : ℚ) / 8) = 10 := jsRound_eq (by norm_num)
    rw [h1, h2]

/-- C6 (amended): a board's node list may contain several nodes at one grid
position; `buildGrid` resolves each position to the last node inserted
there, under the fixed assembly order glyph sockets, then plain nodes, then
gates. -/
theorem parseBoard_grid_last_node_wins
    (glyphSockets nodes gates : List Node) (boardIndex : ℕ)
    (name fullName : String) (rotation : ℤ) (position : Option Pos)
    (r c : ℤ) :
    (ParagonParser.parseBoardCore boardIndex name fullName glyphSockets nodes
        gates rotation position).nodes = glyphSockets ++ nodes ++ gates ∧
    getNodeAt (ParagonParser.parseBoardCore boardIndex name fullName
        glyphSockets nodes gates rotation position).grid r c =
      lastNodeAt (glyphSockets ++ nodes ++ gates) r c := by
  constructor
  · rfl
  · show getNodeAt (buildGrid (glyphSockets ++ nodes ++ gates)) r c =
      lastNodeAt (glyphSockets ++ nodes ++ gates) r c
    unfold getNodeAt buildGrid lastNodeAt
    exact gridLookup_foldl (r, c) (glyphSockets ++ nodes ++ gates) []

/-- Counterexample for C8: two positions 0.2em apart (less than half the
Maxroll spacing of 1) straddle a rounding boundary and map to different grid
positions. -/
theorem close_positions_different_cells :
    |(⟨2/5, 0⟩ : Pos).left - (⟨3/5, 0⟩ : Pos).left| <
        MaxrollParser.GRID_SPACING / 2 ∧
    |(⟨2/5, 0⟩ : Pos).top - (⟨3/5, 0⟩ : Pos).top| <
        MaxrollParser.GRID_SPACING / 2 ∧
    MaxrollParser.positionToGrid ⟨2/5, 0⟩ ≠ MaxrollParser.positionToGrid ⟨3/5, 0⟩ := by
  refine ⟨?_, ?_, ?_⟩
  · norm_num [MaxrollParser.GRID_SPACING, abs_lt]
  · norm_num [MaxrollParser.GRID_SPACING, abs_lt]
  · have h1 : MaxrollParser.positionToGrid ⟨2/5, 0⟩ = ⟨0, 0⟩ := by
      show (⟨jsRound ((0 : ℚ) / 1), jsRound ((2/5 : ℚ) / 1)⟩ : GridPos) = ⟨0, 0⟩
      rw [jsRound_eq (k := 0) (by norm_num [abs_lt]),
        jsRound_eq (k := 0) (by norm_num [abs_lt])]
    have h2 : MaxrollParser.positionToGrid ⟨3/5, 0⟩ = ⟨0, 1⟩ := by
      show (⟨jsRound ((0 : ℚ) / 1), jsRound ((3/5 : ℚ) / 1)⟩ : GridPos) = ⟨0, 1⟩
      rw [jsRound_eq (k := 0) (by norm_num [abs_lt]),
        jsRound_eq (k := 1) (by norm_num [abs_lt])]
    rw [h1, h2]
    simp

/-- C8 (amended): `positionToGrid` is `round(Position / spacing)`
componentwise (spacing 8 for Mobalytics, 1 for Maxroll), and any two
positions that both lie strictly within half the spacing of the same
spacing-grid lattice point map to that same grid cell. -/
theorem positionToGrid_round_and_stability
    (p₁ p₂ q₁ q₂ : Pos) (pr pc qr qc : ℤ)
    (h1L : |p₁.left - 8 * pc| < 4) (h1T : |p₁.top - 8 * pr| < 4)
    (h2L : |p₂.left - 8 * pc| < 4) (h2T : |p₂.top - 8 * pr| < 4)
    (h3L : |q₁.left - qc| < 1 / 2) (h3T : |q₁.top - qr| < 1 / 2)
    (h4L : |q₂.left - qc| < 1 / 2) (h4T : |q₂.top - qr| < 1 / 2) :
    (∀ p : Pos,
      ParagonParser.positionToGrid p =
        ⟨jsRound (p.top / 8), jsRound (p.left / 8)⟩ ∧
      MaxrollParser.positionToGrid p =
        ⟨jsRound (p.top / 1), jsRound (p.left / 1)⟩) ∧
    ParagonParser.positionToGrid p₁ = ⟨pr, pc⟩ ∧
    ParagonParser.positionToGrid p₂ = ⟨pr, pc⟩ ∧
    MaxrollParser.positionToGrid q₁ = ⟨qr, qc⟩ ∧
    MaxrollParser.positionToGrid q₂ = ⟨qr, qc⟩ := by
  have key8 : ∀ (x : ℚ) (k : ℤ), |x - 8 * k| < 4 → jsRound (x / 8) = k := by
    intro x k h
    apply jsRound_eq
    have hx : x / 8 - (k : ℚ) = (x - 8 * k) / 8 := by ring
    rw [hx, abs_div]
    rw [abs_of_pos (by norm_num : (0:ℚ) < 8)]
    rw [div_lt_iff (by norm_num : (0:ℚ) < 8)]
    linarith
  have key1 : ∀ (x : ℚ) (k : ℤ), |x - k| < 1 / 2 → jsRound (x / 1) = k := by
    intro x k h
    apply jsRound_eq
    rwa [div_one]
  refine ⟨fun p => ⟨rfl, rfl⟩, ?_, ?_, ?_, ?_⟩
  · show (⟨jsRound (p₁.top / 8), jsRound (p₁.left / 8)⟩ : GridPos) = ⟨pr, pc⟩
    rw [key8 p₁.top pr h1T, key8 p₁.left pc h1L]
  · show (⟨jsRound (p₂.top / 8), jsRound (p₂.left / 8)⟩ : GridPos) = ⟨pr, pc⟩
    rw [key8 p₂.top pr h2T, key8 p₂.left pc h2L]
  · show (⟨jsRound (q₁.top / 1), jsRound (q₁.left / 1)⟩ : GridPos) = ⟨qr, qc⟩
    rw [key1 q₁.top qr h3T, key1 q₁.left qc h3L]
  · show (⟨jsRound (q₂.top / 1), jsRound (q₂.left / 1)⟩ : GridPos) = ⟨qr, qc⟩
    rw [key1 q₂.top qr h4T, key1 q₂.left qc h4L]

/-- Witness for C8 (amended) at concrete positions near the lattice points
`(8·1, 8·0)` (Mobalytics) and `(2, 5)` (Maxroll). -/
theorem positionToGrid_round_and_stability_witness :
    (|(⟨31/4, 0⟩ : Pos).left - 8 * (1 : ℤ)| < 4 ∧
      |(⟨33/4, 1⟩ : Pos).left - 8 * (1 : ℤ)| < 4 ∧
      |(⟨19/10, 49/10⟩ : Pos).left - ((2 : ℤ) : ℚ)| < 1 / 2 ∧
      |(⟨21/10, 51/10⟩ : Pos).left - ((2 : ℤ) : ℚ)| < 1 / 2) ∧
    ParagonParser.positionToGrid ⟨31/4, 0⟩ = ⟨0, 1⟩ ∧
    ParagonParser.positionToGrid ⟨33/4, 1⟩ = ⟨0, 1⟩ ∧
    MaxrollParser.positionToGrid ⟨19/10, 49/10⟩ = ⟨5, 2⟩ ∧
    MaxrollParser.positionToGrid ⟨21/10, 51/10⟩ = ⟨5, 2⟩ := by
  have h := positionToGrid_round_and_stability
    ⟨31/4, 0⟩ ⟨33/4, 1⟩ ⟨19/10, 49/10⟩ ⟨21/10, 51/10⟩ 0 1 5 2
    (by norm_num [abs_lt]) (by norm_num [abs_lt])
    (by norm_num [abs_lt]) (by norm_num [abs_lt])
    (by norm_num [abs_lt]) (by norm_num [abs_lt])
    (by norm_num [abs_lt]) (by norm_num [abs_lt])
  exact ⟨⟨by norm_num [abs_lt], by norm_num [abs_lt], by norm_num [abs_lt],
    by norm_num [abs_lt]⟩, h.2.1, h.2.2.1, h.2.2.2.1, h.2.2.2.2⟩

/-- C3: projecting at rotation `R` and then projecting the resulting rotated
extents at `(360 − R) % 360` composes to the identity on every
originally-occupied grid position. -/
theorem projector_round_trip (d : Dims) (r row col : ℤ)
    (hr : r = 0 ∨ r = 90 ∨ r = 180 ∨ r = 270)
    (hr1 : d.minRow ≤ row) (hr2 : row ≤ d.maxRow)
    (hc1 : d.minCol ≤ col) (hc2 : col ≤ d.maxCol) :
    TableGenerator.tableCellSource d r
      (TableGenerator.tableCellSource (TableGenerator.rotatedDims d r)
        ((360 - r).tmod 360) (row - d.minRow) (col - d.minCol)).row
      (TableGenerator.tableCellSource (TableGenerator.rotatedDims d r)
        ((360 - r).tmod 360) (row - d.minRow) (col - d.minCol)).col =
      ⟨row, col⟩ := by
  have n0 : normalizeRotation 0 = 0 := by decide
  have n90 : normalizeRotation 90 = 90 := by decide
  have n180 : normalizeRotation 180 = 180 := by decide
  have n270 : normalizeRotation 270 = 270 := by decide
  have i0 : ((360 : ℤ) - 0).tmod 360 = 0 := by decide
  have i90 : ((360 : ℤ) - 90).tmod 360 = 270 := by decide
  have i180 : ((360 : ℤ) - 180).tmod 360 = 180 := by decide
  have i270 : ((360 : ℤ) - 270).tmod 360 = 90 := by decide
  rcases hr with rfl | rfl | rfl | rfl <;>
    simp only [TableGenerator.tableCellSource, TableGenerator.rotatedDims,
      TableGenerator.displayExtents, TableGenerator.transformCoordinates,
      i0, i90, i180, i270, n0, n90, n180, n270] <;>
    norm_num

/-- Witness for C3 at a concrete 2×2 board, rotation 90°, position (0, 1). -/
theorem projector_round_trip_witness :
    ((90 : ℤ) = 0 ∨ (90 : ℤ) = 90 ∨ (90 : ℤ) = 180 ∨ (90 : ℤ) = 270) ∧
    TableGenerator.tableCellSource ⟨0, 1, 0, 1, 2, 2⟩ 90
      (TableGenerator.tableCellSource
        (TableGenerator.rotatedDims ⟨0, 1, 0, 1, 2, 2⟩ 90)
        (((360 : ℤ) - 90).tmod 360) (0 - (0 : ℤ)) (1 - (0 : ℤ))).row
      (TableGenerator.tableCellSource
        (TableGenerator.rotatedDims ⟨0, 1, 0, 1, 2, 2⟩ 90)
        (((360 : ℤ) - 90).tmod 360) (0 - (0 : ℤ)) (1 - (0 : ℤ))).col =
      ⟨0, 1⟩ :=
  ⟨Or.inr (Or.inl rfl),
    projector_round_trip ⟨0, 1, 0, 1, 2, 2⟩ 90 0 1 (Or.inr (Or.inl rfl))
      (by decide) (by decide) (by decide) (by decide)⟩

/-- C10: every consumer of a board rotation normalizes it as
`((rotation % 360) + 360) % 360` first, so `rotateDirection`, the table
projection (both the cell transform and the display extents) and the
rotation formatter are invariant under adding full turns, for every rotation
that is an integer multiple of 90 (including negative CSS angles such as
`rotate(-90deg)`). -/
theorem rotation_consumers_normalize (r k : ℤ) (e : Dir) (d : Dims)
    (a b : ℤ) (h : 90 ∣ r) :
    normalizeRotation (r + 360 * k) = normalizeRotation r ∧
    ParagonParser.rotateDirection e (r + 360 * k) =
      ParagonParser.rotateDirection e r ∧
    TableGenerator.tableCellSource d (r + 360 * k) a b =
      TableGenerator.tableCellSource d r a b ∧
    TableGenerator.displayExtents d (r + 360 * k) =
      TableGenerator.displayExtents d r ∧
    TableGenerator.formatRotation (r + 360 * k) =
      TableGenerator.formatRotation r := by
  have hnorm := normalizeRotation_add_turns r k
  refine ⟨hnorm, ?_, ?_, ?_, ?_⟩
  · unfold ParagonParser.rotateDirection
    rw [hnorm]
  · unfold TableGenerator.tableCellSource
    rw [hnorm]
  · unfold TableGenerator.displayExtents
    rw [hnorm]
  · unfold TableGenerator.formatRotation
    rw [hnorm]
    rcases normalizeRotation_of_right_angle r h with h0 | h90 | h180 | h270
    · rw [h0]
      rfl
    · rw [h90]
      rfl
    · rw [h180]
      rfl
    · rw [h270]
      rfl

/-- Witness for C10 at `r = −90`, `k = 1` (so `−90` behaves as `270`). -/
theorem rotation_consumers_normalize_witness :
    (90 : ℤ) ∣ (-90) ∧
    (normalizeRotation (-90 + 360 * 1) = normalizeRotation (-90) ∧
      ParagonParser.rotateDirection .RIGHT (-90 + 360 * 1) =
        ParagonParser.rotateDirection .RIGHT (-90) ∧
      TableGenerator.tableCellSource ⟨0, 1, 0, 1, 2, 2⟩ (-90 + 360 * 1) 0 1 =
        TableGenerator.tableCellSource ⟨0, 1, 0, 1, 2, 2⟩ (-90) 0 1 ∧
      TableGenerator.displayExtents ⟨0, 1, 0, 1, 2, 2⟩ (-90 + 360 * 1) =
        TableGenerator.displayExtents ⟨0, 1, 0, 1, 2, 2⟩ (-90) ∧
      TableGenerator.formatRotation (-90 + 360 * 1) =
        TableGenerator.formatRotation (-90)) :=
  ⟨by decide,
    rotation_consumers_normalize (-90) 1 .RIGHT ⟨0, 1, 0, 1, 2, 2⟩ 0 1 (by decide)⟩

/-- The two ways of writing the adjacent-board search predicate (the code's
early-return style and the claim's conjunction) find the same board. -/
theorem findAdjacent_pred_eq (boards : List Board) (idx : ℕ) (expected : Pos) :
    boards.find? (fun board =>
      match board.position with
      | none => false
      | some bp =>
        if board.index = idx then false
        else decide (|bp.left - expected.left| < 10) &&
          decide (|bp.top - expected.top| < 10)) =
    boards.find? (fun b =>
      (b.index != idx) &&
        match b.position with
        | none => false
        | some bp =>
          decide (|bp.left - expected.left| < 10) &&
            decide (|bp.top - expected.top| < 10)) := by
  congr 1
  funext b
  cases hbp : b.position with
  | none => simp
  | some bp =>
    by_cases hidx : b.index = idx
    · simp [hidx]
    · simp [hidx]

/-- The code's `findAdjacentBoard` (wrapped into the `connectsTo` payload)
computes exactly the claim-side connection target. -/
theorem findAdjacentBoard_eq_spec (boards : List Board) (board : Board)
    (node : Node) :
    (ParagonParser.findAdjacentBoard boards board
        (ParagonParser.rotateDirection (ParagonParser.getGateEdge node.position)
          board.rotation)).map
      (fun b => (⟨b.index, ParagonParser.connectionName b⟩ : ConnRef)) =
    specGateTarget boards board node := by
  unfold ParagonParser.findAdjacentBoard specGateTarget
  cases hp : board.position with
  | none => rfl
  | some p =>
    cases hdir : ParagonParser.rotateDirection
        (ParagonParser.getGateEdge node.position) board.rotation
    · simp only [ParagonParser.expectedAdjacentPos, ParagonParser.BOARD_SIZE]
      congr 1
      exact findAdjacent_pred_eq boards board.index ⟨p.left, p.top - 168⟩
    · simp only [ParagonParser.expectedAdjacentPos, ParagonParser.BOARD_SIZE]
      congr 1
      exact findAdjacent_pred_eq boards board.index ⟨p.left + 168, p.top⟩
    · simp only [ParagonParser.expectedAdjacentPos, ParagonParser.BOARD_SIZE]
      congr 1
      exact findAdjacent_pred_eq boards board.index ⟨p.left, p.top + 168⟩
    · simp only [ParagonParser.expectedAdjacentPos, ParagonParser.BOARD_SIZE]
      congr 1
      exact findAdjacent_pred_eq boards board.index ⟨p.left - 168, p.top⟩

/-- C4: the Mobalytics connection resolver attaches, to every gate node,
exactly the claim-side target: local edge from the canonical gate positions,
rotated clockwise by the board's rotation, expected neighbour offset by 168
along that axis, first different board within tolerance 10 on both axes (or
`null`); and in the concrete scenario a board at `{left: 0, top: 0}` with
rotation 0 and a gate at the local RIGHT edge expects a neighbour at
`{left: 168, top: 0}`. -/
theorem mobalytics_connection_resolution (boards : List Board) :
    (ParagonParser.calculateGateConnections boards =
      boards.map (fun board =>
        { board with
          nodes := board.nodes.map (fun node =>
            if node.isGate then
              { node with connectsTo := specGateTarget boards board node }
            else node) })) ∧
    ParagonParser.getGateEdge ⟨160, 80⟩ = .RIGHT ∧
    ParagonParser.rotateDirection .RIGHT 0 = .RIGHT ∧
    ParagonParser.expectedAdjacentPos ⟨0, 0⟩ .RIGHT = ⟨168, 0⟩ ∧
    (ParagonParser.calculateGateConnections [scenarioBoardA]).map
      (fun b => b.nodes.map Node.connectsTo) = [[none]] ∧
    (ParagonParser.calculateGateConnections [scenarioBoardA, scenarioBoardB]).map
      (fun b => b.nodes.map Node.connectsTo) = [[some ⟨2, "Next"⟩], []] := by
  have hedge : ParagonParser.getGateEdge ⟨160, 80⟩ = .RIGHT := by decide
  have hrot : ParagonParser.rotateDirection .RIGHT 0 = .RIGHT := by decide
  have hmain : ParagonParser.calculateGateConnections boards =
      boards.map (fun board =>
        { board with
          nodes := board.nodes.map (fun node =>
            if node.isGate then
              { node with connectsTo := specGateTarget boards board node }
            else node) }) := by
    unfold ParagonParser.calculateGateConnections
    apply List.map_congr_left
    intro board _
    congr 1
    apply List.map_congr_left
    intro node _
    by_cases hg : node.isGate
    · rw [if_pos hg, if_pos hg]
      congr 1
      exact findAdjacentBoard_eq_spec boards board node
    · rw [if_neg hg, if_neg hg]
  refine ⟨hmain, hedge, hrot, ?_, ?_, ?_⟩
  · simp [ParagonParser.expectedAdjacentPos, ParagonParser.BOARD_SIZE]
  · simp [ParagonParser.calculateGateConnections, scenarioBoardA, collisionGate,
      hedge, hrot, ParagonParser.findAdjacentBoard, List.find?,
      ParagonParser.expectedAdjacentPos, ParagonParser.BOARD_SIZE]
  · norm_num [ParagonParser.calculateGateConnections, scenarioBoardA,
      scenarioBoardB, collisionGate, hedge, hrot,
      ParagonParser.findAdjacentBoard, List.find?,
      ParagonParser.expectedAdjacentPos, ParagonParser.BOARD_SIZE,
      ParagonParser.connectionName, ParagonParser.stripLeadingDigits]
    decide

/-- A digit character is distinct from any non-digit character. -/
theorem digit_ne (c d : Char) (h : c.isDigit = true) (hd : d.isDigit = false) :
    c ≠ d := by
  intro he
  rw [he, hd] at h
  cases h

/-- Digits are not JS whitespace. -/
theorem isJsSpace_false_of_digit {c : Char} (h : c.isDigit = true) :
    isJsSpace c = false := by
  cases hs : isJsSpace c
  · rfl
  · exfalso
    unfold isJsSpace at hs
    simp only [Bool.or_eq_true, decide_eq_true_eq] at hs
    rcases hs with ((((rfl | rfl) | rfl) | rfl) | rfl) | rfl <;> cases h

/-- Digits belong to the `[-\d.]` class. -/
theorem isNumToken_of_digit {c : Char} (h : c.isDigit = true) :
    isNumToken c = true := by
  unfold isNumToken
  rw [h]
  simp

/-- `takeWhile`/`dropWhile` on a list all of whose elements satisfy the
predicate. -/
theorem takeWhile_all {p : Char → Bool} :
    ∀ l : List Char, (∀ c ∈ l, p c = true) →
      l.takeWhile p = l ∧ l.dropWhile p = [] := by
  intro l
  induction l with
  | nil => intro _; exact ⟨rfl, rfl⟩
  | cons c cs ih =>
    intro hall
    have hc : p c = true := hall c (List.mem_cons_self c cs)
    obtain ⟨h1, h2⟩ := ih (fun d hd => hall d (List.mem_cons_of_mem c hd))
    constructor
    · rw [List.takeWhile_cons, if_pos hc, h1]
    · rw [List.dropWhile_cons, if_pos hc, h2]

/-- `takeWhile`/`dropWhile` through an all-true block followed by a false
head. -/
theorem takeWhile_block {p : Char → Bool} :
    ∀ (xs : List Char) (y : Char) (ys : List Char),
      (∀ c ∈ xs, p c = true) → p y = false →
      (xs ++ y :: ys).takeWhile p = xs ∧ (xs ++ y :: ys).dropWhile p = y :: ys := by
  intro xs
  induction xs with
  | nil =>
    intro y ys _ hy
    constructor
    · rw [List.nil_append, List.takeWhile_cons, if_neg (by rw [hy]; simp)]
    · rw [List.nil_append, List.dropWhile_cons, if_neg (by rw [hy]; simp)]
  | cons c cs ih =>
    intro y ys hall hy
    have hc : p c = true := hall c (List.mem_cons_self c cs)
    obtain ⟨h1, h2⟩ := ih y ys (fun d hd => hall d (List.mem_cons_of_mem c hd)) hy
    constructor
    · rw [List.cons_append, List.takeWhile_cons, if_pos hc, h1]
    · rw [List.cons_append, List.dropWhile_cons, if_pos hc, h2]

/-- Dropping a literal prefix from a list that starts with it. -/
theorem dropLit_self : ∀ (key l : List Char), dropLit key (key ++ l) = some l := by
  intro key
  induction key with
  | nil => intro l; rfl
  | cons c cs ih =>
    intro l
    rw [List.cons_append]
    unfold dropLit
    rw [if_pos rfl]
    exact ih l

/-- A match attempt fails immediately when the first character differs from
the key's first character. -/
theorem tryMatchAt_head_ne (k : Char) (ks : List Char)
    (units : List (List Char)) (c : Char) (cs : List Char) (hck : c ≠ k) :
    tryMatchAt (k :: ks) units (c :: cs) = none := by
  unfold tryMatchAt
  have : dropLit (k :: ks) (c :: cs) = none := by
    unfold dropLit
    rw [if_neg hck]
  rw [this]

/-- One failing search step. -/
theorem searchValue_step (k : Char) (ks : List Char)
    (units : List (List Char)) (c : Char) (cs : List Char)
    (hfail : tryMatchAt (k :: ks) units (c :: cs) = none) :
    searchValue (k :: ks) units (c :: cs) = searchValue (k :: ks) units cs := by
  calc searchValue (k :: ks) units (c :: cs)
      = (match tryMatchAt (k :: ks) units (c :: cs) with
        | some capture => some capture
        | none => searchValue (k :: ks) units cs) := rfl
    _ = searchValue (k :: ks) units cs := by rw [hfail]

/-- A successful match at the front wins the search. -/
theorem searchValue_front (k : Char) (ks : List Char)
    (units : List (List Char)) (l : List Char) (cap : List Char)
    (h : tryMatchAt (k :: ks) units l = some cap) :
    searchValue (k :: ks) units l = some cap := by
  cases l with
  | nil =>
    exfalso
    unfold tryMatchAt dropLit at h
    cases h
  | cons c cs =>
    unfold searchValue
    rw [h]

/-- The search skips over any block whose characters all differ from the
key's first character. -/
theorem searchValue_skip (k : Char) (ks : List Char)
    (units : List (List Char)) :
    ∀ (xs ys : List Char), (∀ c ∈ xs, c ≠ k) →
      searchValue (k :: ks) units (xs ++ ys) =
        searchValue (k :: ks) units ys := by
  intro xs
  induction xs with
  | nil => intro ys _; rfl
  | cons c cs ih =>
    intro ys hne
    rw [List.cons_append,
      searchValue_step k ks units c (cs ++ ys)
        (tryMatchAt_head_ne k ks units c (cs ++ ys)
          (hne c (List.mem_cons_self c cs)))]
    exact ih ys (fun d hd => hne d (List.mem_cons_of_mem c hd))

/-- A search over a list containing no occurrence of the key's first
character fails. -/
theorem searchValue_none (k : Char) (ks : List Char)
    (units : List (List Char)) :
    ∀ xs : List Char, (∀ c ∈ xs, c ≠ k) →
      searchValue (k :: ks) units xs = none := by
  intro xs hne
  have h := searchValue_skip k ks units xs [] hne
  rw [List.append_nil] at h
  rw [h]
  rfl

/-- Evaluating a match attempt at a canonical `key: <digits><unit>…`
position: the number token is captured exactly, and the match succeeds iff
some accepted unit literal follows. -/
theorem tryMatchAt_canonical (key : List Char) (units : List (List Char))
    (ds : List Char) (b : Bool) (rest : List Char)
    (hds : ds ≠ []) (hall : ∀ c ∈ ds, c.isDigit = true) :
    tryMatchAt key units (key ++ (' ' :: (ds ++ (unitChars b ++ rest)))) =
      (if units.any (fun w => w.isPrefixOf (unitChars b ++ rest)) then some ds
        else none) := by
  have hnum : ∀ c ∈ ds, isNumToken c = true :=
    fun c hc => isNumToken_of_digit (hall c hc)
  have hempty : ds.isEmpty = false := by
    cases ds with
    | nil => exact absurd rfl hds
    | cons d ds' => rfl
  cases b
  · rw [show unitChars false ++ rest = 'p' :: ('x' :: rest) from rfl]
    obtain ⟨h1, h2⟩ := takeWhile_block (p := isNumToken) ds 'p' ('x' :: rest)
      hnum (by rfl)
    have hsp2 : (' ' :: (ds ++ ('p' :: ('x' :: rest)))).dropWhile isJsSpace =
        ds ++ ('p' :: ('x' :: rest)) := by
      rw [List.dropWhile_cons, if_pos (by rfl)]
      cases ds with
      | nil => exact absurd rfl hds
      | cons d ds' =>
        rw [List.cons_append, List.dropWhile_cons,
          if_neg (by
            rw [isJsSpace_false_of_digit (hall d (List.mem_cons_self d ds'))]
            simp)]
    simp only [tryMatchAt, dropLit_self, hsp2, h1, h2, hempty]
    simp
  · rw [show unitChars true ++ rest = 'e' :: ('m' :: rest) from rfl]
    obtain ⟨h1, h2⟩ := takeWhile_block (p := isNumToken) ds 'e' ('m' :: rest)
      hnum (by rfl)
    have hsp2 : (' ' :: (ds ++ ('e' :: ('m' :: rest)))).dropWhile isJsSpace =
        ds ++ ('e' :: ('m' :: rest)) := by
      rw [List.dropWhile_cons, if_pos (by rfl)]
      cases ds with
      | nil => exact absurd rfl hds
      | cons d ds' =>
        rw [List.cons_append, List.dropWhile_cons,
          if_neg (by
            rw [isJsSpace_false_of_digit (hall d (List.mem_cons_self d ds'))]
            simp)]
    simp only [tryMatchAt, dropLit_self, hsp2, h1, h2, hempty]
    simp

/-- `searchValue_front` for any non-empty key. -/
theorem searchValue_front_key (key : List Char) (hk : key ≠ [])
    (units : List (List Char)) (l cap : List Char)
    (h : tryMatchAt key units l = some cap) :
    searchValue key units l = some cap := by
  cases key with
  | nil => exact absurd rfl hk
  | cons k ks => exact searchValue_front k ks units l cap h

/-- No character of a unit literal is `'l'` or `'t'`. -/
theorem unitChars_ne (b : Bool) :
    ∀ c ∈ unitChars b, c ≠ 'l' ∧ c ≠ 't' := by
  cases b <;> decide

/-- The left-value search on a canonical style string: it matches at the
very front, capturing the digit string, iff the left unit is accepted;
otherwise nothing later matches. -/
theorem searchValue_left_mkStyle (units : List (List Char)) (ld : List Char)
    (lu : Bool) (td : List Char) (tu : Bool)
    (hld : ld ≠ []) (hldd : ∀ c ∈ ld, c.isDigit = true)
    (htdd : ∀ c ∈ td, c.isDigit = true) :
    searchValue leftKey units (mkStyleChars ld lu td tu) =
      (if units.any (fun w => w.isPrefixOf (unitChars lu ++ styleTail td tu))
        then some ld else none) := by
  have hcanon := tryMatchAt_canonical leftKey units ld lu (styleTail td tu)
    hld hldd
  by_cases hu : units.any
      (fun w => w.isPrefixOf (unitChars lu ++ styleTail td tu)) = true
  · rw [if_pos hu]
    apply searchValue_front_key leftKey (by decide)
    unfold mkStyleChars
    rw [hcanon, if_pos hu]
  · rw [if_neg hu]
    have hfail : tryMatchAt leftKey units (mkStyleChars ld lu td tu) = none := by
      unfold mkStyleChars
      rw [hcanon, if_neg hu]
    rw [show mkStyleChars ld lu td tu =
        'l' :: ('e' :: 'f' :: 't' :: ':' :: ' ' ::
          (ld ++ (unitChars lu ++ styleTail td tu))) from rfl] at hfail ⊢
    rw [show leftKey = 'l' :: ('e' :: 'f' :: 't' :: ':' :: []) from rfl] at hfail ⊢
    rw [searchValue_step _ _ _ _ _ hfail]
    apply searchValue_none
    intro c hc hcl
    subst hcl
    have h1 : ('l' : Char) ∉ ld := fun hm => absurd (hldd _ hm) (by decide)
    have h2 : ('l' : Char) ∉ td := fun hm => absurd (htdd _ hm) (by decide)
    have h3 : ('l' : Char) ∉ unitChars lu := by cases lu <;> decide
    have h4 : ('l' : Char) ∉ unitChars tu := by cases tu <;> decide
    simp only [List.mem_cons, List.mem_append, styleTail, topKey] at hc
    simp [h1, h2, h3, h4] at hc


/-- The top-value search on a canonical style string: no position before the
real `top:` matches (the `t` inside `left:` is not followed by `op:`), and
the `top:` position captures the digit string iff the top unit is accepted;
nothing after it can match either. -/
theorem searchValue_top_mkStyle (units : List (List Char)) (ld : List Char)
    (lu : Bool) (td : List Char) (tu : Bool)
    (hldd : ∀ c ∈ ld, c.isDigit = true) (htd : td ≠ [])
    (htdd : ∀ c ∈ td, c.isDigit = true) :
    searchValue topKey units (mkStyleChars ld lu td tu) =
      (if units.any (fun w => w.isPrefixOf (unitChars tu)) then some td
        else none) := by
  have hcanon := tryMatchAt_canonical topKey units td tu [] htd htdd
  rw [List.append_nil] at hcanon
  rw [show mkStyleChars ld lu td tu =
    'l' :: ('e' :: 'f' :: 't' :: ':' :: ' ' ::
      (ld ++ (unitChars lu ++ styleTail td tu))) from rfl]
  rw [show topKey = 't' :: ('o' :: 'p' :: ':' :: []) from rfl] at hcanon ⊢
  rw [searchValue_step _ _ _ _ _ (tryMatchAt_head_ne _ _ _ _ _ (by decide))]
  rw [searchValue_step _ _ _ _ _ (tryMatchAt_head_ne _ _ _ _ _ (by decide))]
  rw [searchValue_step _ _ _ _ _ (tryMatchAt_head_ne _ _ _ _ _ (by decide))]
  have hfail4 : tryMatchAt ('t' :: ('o' :: 'p' :: ':' :: [])) units
      ('t' :: (':' :: (' ' :: (ld ++ (unitChars lu ++ styleTail td tu))))) =
      none := by
    simp [tryMatchAt, dropLit]
  rw [searchValue_step _ _ _ _ _ hfail4]
  rw [searchValue_step _ _ _ _ _ (tryMatchAt_head_ne _ _ _ _ _ (by decide))]
  rw [searchValue_step _ _ _ _ _ (tryMatchAt_head_ne _ _ _ _ _ (by decide))]
  rw [searchValue_skip _ _ _ ld _
    (fun c hc => digit_ne c 't' (hldd c hc) (by decide))]
  cases lu
  · rw [show unitChars false ++ styleTail td tu =
      'p' :: ('x' :: styleTail td tu) from rfl]
    rw [searchValue_step _ _ _ _ _ (tryMatchAt_head_ne _ _ _ _ _ (by decide))]
    rw [searchValue_step _ _ _ _ _ (tryMatchAt_head_ne _ _ _ _ _ (by decide))]
    rw [show styleTail td tu =
      ';' :: (' ' :: (('t' :: ('o' :: 'p' :: ':' :: [])) ++
        (' ' :: (td ++ unitChars tu)))) from rfl]
    rw [searchValue_step _ _ _ _ _ (tryMatchAt_head_ne _ _ _ _ _ (by decide))]
    rw [searchValue_step _ _ _ _ _ (tryMatchAt_head_ne _ _ _ _ _ (by decide))]
    by_cases hu : units.any (fun w => w.isPrefixOf (unitChars tu)) = true
    · rw [if_pos hu]
      apply searchValue_front
      rw [hcanon, if_pos hu]
    · rw [if_neg hu]
      have hfailT : tryMatchAt ('t' :: ('o' :: 'p' :: ':' :: [])) units
          (('t' :: ('o' :: 'p' :: ':' :: [])) ++
            (' ' :: (td ++ unitChars tu))) = none := by
        rw [hcanon, if_neg hu]
      rw [show ('t' :: ('o' :: 'p' :: ':' :: [])) ++
          (' ' :: (td ++ unitChars tu)) =
        't' :: ('o' :: ('p' :: (':' :: (' ' :: (td ++ unitChars tu)))))
        from rfl] at hfailT ⊢
      rw [searchValue_step _ _ _ _ _ hfailT]
      rw [searchValue_step _ _ _ _ _ (tryMatchAt_head_ne _ _ _ _ _ (by decide))]
      rw [searchValue_step _ _ _ _ _ (tryMatchAt_head_ne _ _ _ _ _ (by decide))]
      rw [searchValue_step _ _ _ _ _ (tryMatchAt_head_ne _ _ _ _ _ (by decide))]
      rw [searchValue_step _ _ _ _ _ (tryMatchAt_head_ne _ _ _ _ _ (by decide))]
      rw [searchValue_skip _ _ _ td _
        (fun c hc => digit_ne c 't' (htdd c hc) (by decide))]
      apply searchValue_none
      intro c hc
      exact (unitChars_ne tu c hc).2
  · rw [show unitChars true ++ styleTail td tu =
      'e' :: ('m' :: styleTail td tu) from rfl]
    rw [searchValue_step _ _ _ _ _ (tryMatchAt_head_ne _ _ _ _ _ (by decide))]
    rw [searchValue_step _ _ _ _ _ (tryMatchAt_head_ne _ _ _ _ _ (by decide))]
    rw [show styleTail td tu =
      ';' :: (' ' :: (('t' :: ('o' :: 'p' :: ':' :: [])) ++
        (' ' :: (td ++ unitChars tu)))) from rfl]
    rw [searchValue_step _ _ _ _ _ (tryMatchAt_head_ne _ _ _ _ _ (by decide))]
    rw [searchValue_step _ _ _ _ _ (tryMatchAt_head_ne _ _ _ _ _ (by decide))]
    by_cases hu : units.any (fun w => w.isPrefixOf (unitChars tu)) = true
    · rw [if_pos hu]
      apply searchValue_front
      rw [hcanon, if_pos hu]
    · rw [if_neg hu]
      have hfailT : tryMatchAt ('t' :: ('o' :: 'p' :: ':' :: [])) units
          (('t' :: ('o' :: 'p' :: ':' :: [])) ++
            (' ' :: (td ++ unitChars tu))) = none := by
        rw [hcanon, if_neg hu]
      rw [show ('t' :: ('o' :: 'p' :: ':' :: [])) ++
          (' ' :: (td ++ unitChars tu)) =
        't' :: ('o' :: ('p' :: (':' :: (' ' :: (td ++ unitChars tu)))))
        from rfl] at hfailT ⊢
      rw [searchValue_step _ _ _ _ _ hfailT]
      rw [searchValue_step _ _ _ _ _ (tryMatchAt_head_ne _ _ _ _ _ (by decide))]
      rw [searchValue_step _ _ _ _ _ (tryMatchAt_head_ne _ _ _ _ _ (by decide))]
      rw [searchValue_step _ _ _ _ _ (tryMatchAt_head_ne _ _ _ _ _ (by decide))]
      rw [searchValue_step _ _ _ _ _ (tryMatchAt_head_ne _ _ _ _ _ (by decide))]
      rw [searchValue_skip _ _ _ td _
        (fun c hc => digit_ne c 't' (htdd c hc) (by decide))]
      apply searchValue_none
      intro c hc
      exact (unitChars_ne tu c hc).2

/-- `parseFloat` on a non-empty all-digit capture yields its numeric value. -/
theorem parseFloatCapture_digits (ds : List Char) (hds : ds ≠ [])
    (hall : ∀ c ∈ ds, c.isDigit = true) :
    parseFloatCapture ds = some ((digitsVal ds : ℚ)) := by
  cases ds with
  | nil => exact absurd rfl hds
  | cons c cs =>
    have hc : c.isDigit = true := hall c (List.mem_cons_self c cs)
    have hcm : c ≠ '-' := digit_ne c '-' hc (by decide)
    have hstep : parseFloatCapture (c :: cs) =
        (if c = '-' then Option.map (fun q => -q) (parseFloatDigits cs)
          else parseFloatDigits (c :: cs)) := rfl
    rw [hstep, if_neg hcm]
    obtain ⟨h1, h2⟩ := takeWhile_all (p := Char.isDigit) (c :: cs) hall
    simp only [parseFloatDigits, h1, h2]
    simp

/-- The Maxroll regexes accept both the `em` and the `px` unit. -/
theorem units_accept_maxroll (b : Bool) (X : List Char) :
    (([emUnit, pxUnit] : List (List Char)).any
      (fun w => w.isPrefixOf (unitChars b ++ X))) = true := by
  cases b <;> simp [emUnit, pxUnit, unitChars, List.isPrefixOf]

/-- The Mobalytics regexes accept the `em` unit. -/
theorem units_accept_mobalytics (X : List Char) :
    (([emUnit] : List (List Char)).any
      (fun w => w.isPrefixOf (unitChars true ++ X))) = true := by
  simp [emUnit, unitChars, List.isPrefixOf]

/-- The Mobalytics regexes reject the `px` unit. -/
theorem units_reject_mobalytics (X : List Char) :
    (([emUnit] : List (List Char)).any
      (fun w => w.isPrefixOf (unitChars false ++ X))) = false := by
  simp [emUnit, pxUnit, unitChars, List.isPrefixOf]

/-- Either parser returns no position exactly when one of its two regex
searches fails (Maxroll flavour). -/
theorem maxroll_parsePosition_none_iff (s : String) :
    MaxrollParser.parsePosition s = none ↔
      (searchValue leftKey [emUnit, pxUnit] s.data = none ∨
        searchValue topKey [emUnit, pxUnit] s.data = none) := by
  unfold MaxrollParser.parsePosition
  cases searchValue leftKey [emUnit, pxUnit] s.data <;>
    cases searchValue topKey [emUnit, pxUnit] s.data <;> simp

/-- Either parser returns no position exactly when one of its two regex
searches fails (Mobalytics flavour). -/
theorem mobalytics_parsePosition_none_iff (s : String) :
    ParagonParser.parsePosition s = none ↔
      (searchValue leftKey [emUnit] s.data = none ∨
        searchValue topKey [emUnit] s.data = none) := by
  unfold ParagonParser.parsePosition
  cases searchValue leftKey [emUnit] s.data <;>
    cases searchValue topKey [emUnit] s.data <;> simp

/-- Counterexample for C9: on a style string whose values carry the `px`
unit, the Maxroll parser extracts a position but the Mobalytics parser —
whose regexes accept only `em` — returns no position, so the two extractors
do not both accept "either of two" units. -/
theorem px_values_rejected_by_mobalytics :
    MaxrollParser.parsePosition "left: 10px; top: 20px" ≠ none ∧
    ParagonParser.parsePosition "left: 10px; top: 20px" = none := by
  constructor
  · decide
  · decide

/-- C9 (amended): on canonical style strings the Maxroll parser extracts the
left/top numeric values with either unit (`em` or `px`), the Mobalytics
parser does so only when both values use `em` (treating `px` values as
absent), and each parser returns no position exactly when one of its two
value patterns is absent from the raw style string. -/
theorem style_position_parsers (ld td : List Char) (lu tu : Bool)
    (hld : ld ≠ []) (hldd : ∀ c ∈ ld, c.isDigit = true)
    (htd : td ≠ []) (htdd : ∀ c ∈ td, c.isDigit = true) :
    MaxrollParser.parsePosition ⟨mkStyleChars ld lu td tu⟩ =
      some ⟨some ((digitsVal ld : ℚ)), some ((digitsVal td : ℚ))⟩ ∧
    ParagonParser.parsePosition ⟨mkStyleChars ld lu td tu⟩ =
      (if lu && tu then
        some ⟨some ((digitsVal ld : ℚ)), some ((digitsVal td : ℚ))⟩
      else none) ∧
    (∀ s : String, MaxrollParser.parsePosition s = none ↔
      (searchValue leftKey [emUnit, pxUnit] s.data = none ∨
        searchValue topKey [emUnit, pxUnit] s.data = none)) ∧
    (∀ s : String, ParagonParser.parsePosition s = none ↔
      (searchValue leftKey [emUnit] s.data = none ∨
        searchValue topKey [emUnit] s.data = none)) := by
  have hdata : (String.mk (mkStyleChars ld lu td tu)).data =
      mkStyleChars ld lu td tu := rfl
  have htuA : (([emUnit, pxUnit] : List (List Char)).any
      (fun w => w.isPrefixOf (unitChars tu))) = true := by
    have := units_accept_maxroll tu []
    rwa [List.append_nil] at this
  refine ⟨?_, ?_, maxroll_parsePosition_none_iff, mobalytics_parsePosition_none_iff⟩
  · unfold MaxrollParser.parsePosition
    rw [hdata,
      searchValue_left_mkStyle [emUnit, pxUnit] ld lu td tu hld hldd htdd,
      if_pos (units_accept_maxroll lu (styleTail td tu)),
      searchValue_top_mkStyle [emUnit, pxUnit] ld lu td tu hldd htd htdd,
      if_pos htuA]
    simp [parseFloatCapture_digits ld hld hldd,
      parseFloatCapture_digits td htd htdd]
  · unfold ParagonParser.parsePosition
    rw [hdata,
      searchValue_left_mkStyle [emUnit] ld lu td tu hld hldd htdd,
      searchValue_top_mkStyle [emUnit] ld lu td tu hldd htd htdd]
    cases lu
    · rw [if_neg (by rw [units_reject_mobalytics (styleTail td tu)]; simp)]
      simp
    · rw [if_pos (units_accept_mobalytics (styleTail td tu))]
      cases tu
      · rw [if_neg (by
          have := units_reject_mobalytics []
          rw [List.append_nil] at this
          rw [this]
          simp)]
        simp
      · rw [if_pos (by
          have := units_accept_mobalytics []
          rwa [List.append_nil] at this)]
        simp [parseFloatCapture_digits ld hld hldd,
          parseFloatCapture_digits td htd htdd]

/-- Witness for C9 (amended) at the concrete style `left: 1em; top: 2em`. -/
theorem style_position_parsers_witness :
    ((['1'] : List Char) ≠ [] ∧ (∀ c ∈ (['1'] : List Char), c.isDigit = true) ∧
      (['2'] : List Char) ≠ [] ∧
      (∀ c ∈ (['2'] : List Char), c.isDigit = true)) ∧
    (MaxrollParser.parsePosition ⟨mkStyleChars ['1'] true ['2'] true⟩ =
        some ⟨some ((digitsVal ['1'] : ℚ)), some ((digitsVal ['2'] : ℚ))⟩ ∧
      ParagonParser.parsePosition ⟨mkStyleChars ['1'] true ['2'] true⟩ =
        (if true && true then
          some ⟨some ((digitsVal ['1'] : ℚ)), some ((digitsVal ['2'] : ℚ))⟩
        else none) ∧
      (∀ s : String, MaxrollParser.parsePosition s = none ↔
        (searchValue leftKey [emUnit, pxUnit] s.data = none ∨
          searchValue topKey [emUnit, pxUnit] s.data = none)) ∧
      (∀ s : String, ParagonParser.parsePosition s = none ↔
        (searchValue leftKey [emUnit] s.data = none ∨
          searchValue topKey [emUnit] s.data = none))) :=
  ⟨⟨by decide, by decide, by decide, by decide⟩,
    style_position_parsers ['1'] ['2'] true true (by decide) (by decide)
      (by decide) (by decide)⟩
